import Mathlib

/-!
Verification of the polynomial trend-surface engine of this repository.

The numerical core lives in scripts/TrendSurfaceAnalysis.py (design matrix,
least-squares and robust solvers, cross-validation, statistics, polynomial
evaluation) and plugin/EnhancedTrendSurface/core_analysis.py
(polynomial_regression with its pseudo-inverse fallback).

Embedding choices:
- numpy arrays become lists of rationals; matrices become lists of rows.
- External numerical routines (np.linalg.lstsq, np.linalg.solve, np.linalg.inv,
  np.linalg.pinv, np.sqrt, np.log, scipy t.ppf, scipy normaltest) are oracle
  fields of a NumEnv environment; an Option-none result stands for a raised
  LinAlgError or other exception at that call site.
- The global numpy random state is threaded explicitly: np.random.shuffle is an
  oracle consuming and returning a state token.
- A raised QgsProcessingException becomes an Except.error result.
- feedback.isCanceled() is a Bool-valued function of the fold index, supplied
  by the caller; feedback.pushInfo branch reporting of least_squares_fit is
  recorded in the usedWeighted flag of the returned statistics.
-/

set_option autoImplicit false
set_option linter.unusedVariables false

namespace TrendSurface

/-! Basic vector and matrix operations, mirroring the numpy expressions used
by the source. -/

/-- Dot product of two equal-length vectors (np.dot on 1-d arrays). -/
def dot (u v : List ℚ) : ℚ := (List.zipWith (· * ·) u v).sum

/-- Matrix-vector product row by row (np.dot(A, c)). -/
def matVec (A : List (List ℚ)) (c : List ℚ) : List ℚ := A.map (fun row => dot row c)

/-- Elementwise vector difference (z - z_pred on numpy arrays). -/
def vsub (u v : List ℚ) : List ℚ := List.zipWith (· - ·) u v

/-- Scale row i of A by s i (the numpy broadcast A * s[:, np.newaxis]). -/
def rowScale (s : List ℚ) (A : List (List ℚ)) : List (List ℚ) :=
  List.zipWith (fun si row => row.map (fun aij => si * aij)) s A

/-- Transpose of a list-of-rows matrix (A.T). -/
def transpose (A : List (List ℚ)) : List (List ℚ) :=
  (List.range (A.headD []).length).map (fun j => A.map (fun row => row.getD j 0))

/-- Matrix product (A @ B). -/
def matMul (A B : List (List ℚ)) : List (List ℚ) :=
  A.map (fun row => (transpose B).map (fun col => dot row col))

/-- Main diagonal of a square matrix (np.diag). -/
def diag (A : List (List ℚ)) : List ℚ :=
  (List.range A.length).map (fun i => (A.getD i []).getD i 0)

/-- Fancy indexing v[idx] of a numpy vector by an index array. -/
def gather (v : List ℚ) (idx : List ℕ) : List ℚ := idx.map (fun i => v.getD i 0)

/-- Arithmetic mean (np.mean). -/
def meanQ (l : List ℚ) : ℚ := l.sum / l.length

/-- Insert a value into a sorted list, keeping it sorted. -/
def insertSorted (a : ℚ) : List ℚ → List ℚ
  | [] => [a]
  | b :: l => if a ≤ b then a :: b :: l else b :: insertSorted a l

/-- Insertion sort; a structurally recursive stand-in for the sort inside
np.median (only the sorted values matter for the median). -/
def sortQ (l : List ℚ) : List ℚ := l.foldr insertSorted []

/-- Median of a list (np.median): middle element of the sorted values for odd
length, average of the two middle elements for even length. The value 0 for
the empty list is never consulted by the source paths modelled here. -/
def median (l : List ℚ) : ℚ :=
  let s := sortQ l
  let n := l.length
  if n = 0 then 0
  else if n % 2 = 1 then s.getD (n / 2) 0
  else (s.getD (n / 2 - 1) 0 + s.getD (n / 2) 0) / 2

/-- Maximum of a list of nonnegative values (np.max on an array of absolute
values; the 0 default is never the maximum on the nonempty nonnegative lists
the source applies it to). -/
def maxList (l : List ℚ) : ℚ := l.foldl max 0

/-- Population standard deviation (np.std), with the square root supplied by
the environment oracle. -/
def variance (l : List ℚ) : ℚ := meanQ (l.map (fun v => (v - meanQ l) ^ 2))

/-- Mean squared error of predictions (sklearn.metrics.mean_squared_error). -/
def mean_squared_error (y_true y_pred : List ℚ) : ℚ :=
  meanQ ((List.zipWith (· - ·) y_true y_pred).map (fun e => e ^ 2))

/-- Coefficient of determination (sklearn.metrics.r2_score): 1 - ss_res/ss_tot,
with the constant-target conventions of sklearn. -/
def r2_score (y_true y_pred : List ℚ) : ℚ :=
  let ss_res := ((List.zipWith (· - ·) y_true y_pred).map (fun e => e ^ 2)).sum
  let ss_tot := ((y_true.map (fun v => v - meanQ y_true)).map (fun e => e ^ 2)).sum
  if ss_tot = 0 then (if ss_res = 0 then 1 else 0) else 1 - ss_res / ss_tot

/-! The polynomial basis shared by create_design_matrix and
evaluate_polynomial. -/

/-- Number of polynomial terms: n_terms = (degree + 1) * (degree + 2) // 2. -/
def n_terms (degree : ℕ) : ℕ := (degree + 1) * (degree + 2) / 2

/-- The exponent pairs (d - j, j) enumerated by the two nested loops
for d in range(degree + 1): for j in range(d + 1) that both
create_design_matrix and evaluate_polynomial run, in loop order. -/
def designTerms (degree : ℕ) : List (ℕ × ℕ) :=
  (List.range (degree + 1)).flatMap (fun d => (List.range (d + 1)).map (fun j => (d - j, j)))

/-- One row of the design matrix of create_design_matrix
(TrendSurfaceAnalysis.py lines 350-364) for the point (xi, yi): the array
starts as np.ones and the loops overwrite column col_index with
x ** (d - j) * y ** j while col_index < n_terms; columns the loops would not
reach keep the 1.0 initialisation. -/
def designRow (degree : ℕ) (xi yi : ℚ) : List ℚ :=
  let written := (designTerms degree).take (n_terms degree)
  written.map (fun ab => xi ^ ab.1 * yi ^ ab.2)
    ++ List.replicate (n_terms degree - written.length) 1

/-- Embedding of create_design_matrix: the n_points x n_terms matrix whose
row i is the polynomial basis evaluated at (x i, y i). -/
def create_design_matrix (x y : List ℚ) (degree : ℕ) : List (List ℚ) :=
  List.zipWith (fun xi yi => designRow degree xi yi) x y

/-- Loop body of evaluate_polynomial (TrendSurfaceAnalysis.py lines 686-695):
walk the term enumeration, and while idx < len(coefficients) add
coefficients[idx] * x ** a * y ** b and advance idx; once idx reaches the end
nothing further is added and idx stays put, exactly as in the source. -/
def evalPolyAux (x y : ℚ) (coefficients : List ℚ) :
    List (ℕ × ℕ) → ℕ → ℚ → ℚ
  | [], _, value => value
  | ab :: rest, idx, value =>
    if idx < coefficients.length then
      evalPolyAux x y coefficients rest (idx + 1)
        (value + coefficients.getD idx 0 * x ^ ab.1 * y ^ ab.2)
    else
      evalPolyAux x y coefficients rest idx value

/-- Embedding of evaluate_polynomial: value starts at 0, idx at 0. -/
def evaluate_polynomial (x y : ℚ) (coefficients : List ℚ) (degree : ℕ) : ℚ :=
  evalPolyAux x y coefficients (designTerms degree) 0 0

/-! The numerical environment: oracles for the external numerical routines and
the threaded global random state. -/

/-- What np.linalg.lstsq returns: coefficients, the lstsq residual output
(discarded by every caller in the source), matrix rank and singular values. -/
structure LstsqOut where
  coefficients : List ℚ
  lstsq_residuals : List ℚ
  rank : ℕ
  singular_values : List ℚ
deriving DecidableEq

/-- Oracles for the external numerical routines used by the source, plus the
np.random.shuffle state transformer. A none result models a raised
LinAlgError (or other exception) at that call site. -/
structure NumEnv where
  lstsq : List (List ℚ) → List ℚ → Option LstsqOut
  sqrtQ : ℚ → ℚ
  logQ : ℚ → ℚ
  invQ : List (List ℚ) → Option (List (List ℚ))
  t_ppf : ℚ → ℚ → Option ℚ
  normaltest : List ℚ → Option ℚ
  solveQ : List (List ℚ) → List ℚ → Option (List ℚ)
  pinvQ : List (List ℚ) → Option (List (List ℚ))
  shuffle : ℕ → List ℕ → List ℕ × ℕ

/-- Population standard deviation np.std, via the square-root oracle. -/
def stdQ (env : NumEnv) (l : List ℚ) : ℚ := env.sqrtQ (variance l)

/-- The model_stats dictionary assembled by least_squares_fit, extended by the
robust_iterations key that robust_regression_fit adds, and by the usedWeighted
flag recording which feedback.pushInfo branch ran. -/
structure FitStats where
  rank : ℕ
  singular_values : List ℚ
  effective_parameters : ℕ
  robust_iterations : Option ℕ
  usedWeighted : Bool
deriving DecidableEq

/-- Solve dispatch of least_squares_fit (TrendSurfaceAnalysis.py lines
368-379): the weighted branch is taken iff w is present with
len(w) == len(z), scaling rows and targets by np.sqrt(w) before calling the
lstsq oracle; the Bool records which feedback.pushInfo branch ran. -/
def lsq_call (env : NumEnv) (A : List (List ℚ)) (z : List ℚ)
    (w : Option (List ℚ)) : Option LstsqOut × Bool :=
  match w with
  | some ws =>
    if ws.length = z.length then
      let W_sqrt := ws.map env.sqrtQ
      (env.lstsq (rowScale W_sqrt A) (List.zipWith (· * ·) z W_sqrt), true)
    else (env.lstsq A z, false)
  | none => (env.lstsq A z, false)

/-- Continuation of the least_squares_fit embedding: branch dispatch on the
weights, then residual recomputation against the unweighted data. -/
def least_squares_fit (env : NumEnv) (A : List (List ℚ)) (z : List ℚ)
    (w : Option (List ℚ)) : Except String (List ℚ × List ℚ × FitStats) :=
  match lsq_call env A z w with
  | (none, _) => .error "Matrix solving failed"
  | (some out, weighted) =>
    let z_pred := matVec A out.coefficients
    let residuals := vsub z z_pred
    .ok (out.coefficients, residuals,
      { rank := out.rank, singular_values := out.singular_values,
        effective_parameters := out.rank, robust_iterations := none,
        usedWeighted := weighted })

/-- The np.where(abs_residuals <= k, 1.0, k / abs_residuals) Huber weights of
robust_regression_fit. -/
def robust_weights_of (abs_residuals : List ℚ) (k : ℚ) : List ℚ :=
  abs_residuals.map (fun ar => if ar ≤ k then 1 else k / ar)

/-- The robust_weights update lines 417-419 of the source: multiply by the
externally supplied weights when present, keep the robust weights alone
otherwise. -/
def combined_weights (w : Option (List ℚ)) (rw0 : List ℚ) : List ℚ :=
  match w with
  | some ws => List.zipWith (· * ·) rw0 ws
  | none => rw0

/-- Loop body of robust_regression_fit (TrendSurfaceAnalysis.py lines
405-439). Arguments: current iteration index, remaining iterations, current
coefficients and residuals. Returns final coefficients, final residuals, and
the value iteration + 1 read after the loop (equal to the index count when the
loop exhausts all iterations). Every break keeps the current pair. -/
def robustLoop (env : NumEnv) (A : List (List ℚ)) (z : List ℚ)
    (w : Option (List ℚ)) (tol : ℚ) :
    ℕ → ℕ → List ℚ → List ℚ → List ℚ × List ℚ × ℕ
  | iter, 0, c, r => (c, r, iter)
  | iter, rem + 1, c, r =>
    let abs_residuals := r.map (fun t => |t|)
    let mad := median abs_residuals
    if mad < 1 / 10 ^ 10 then (c, r, iter + 1)
    else
      let k := 1345 / 1000 * mad
      let rw0 := robust_weights_of abs_residuals k
      let W_sqrt := (combined_weights w rw0).map env.sqrtQ
      match env.lstsq (rowScale W_sqrt A) (List.zipWith (· * ·) z W_sqrt) with
      | none => (c, r, iter + 1)
      | some out =>
        let change := maxList (List.zipWith (fun a b => |a - b|) out.coefficients c)
        if change < tol then (c, r, iter + 1)
        else robustLoop env A z w tol (iter + 1) rem out.coefficients
          (vsub z (matVec A out.coefficients))

/-- Default max_iter of robust_regression_fit. -/
def max_iter_default : ℕ := 20

/-- Default tol of robust_regression_fit. -/
def tol_default : ℚ := 1 / 1000000

/-- Embedding of robust_regression_fit (TrendSurfaceAnalysis.py lines
398-441): initial ordinary fit, then the iteratively reweighted loop. With
max_iter = 0 the source reads the loop variable iteration after a loop that
never bound it, a NameError; modelled as an error result. -/
def robust_regression_fit (env : NumEnv) (A : List (List ℚ)) (z : List ℚ)
    (w : Option (List ℚ)) (max_iter : ℕ) (tol : ℚ) :
    Except String (List ℚ × List ℚ × FitStats) :=
  match least_squares_fit env A z w with
  | .error e => .error e
  | .ok (c, r, stats) =>
    if max_iter = 0 then .error "NameError"
    else
      let out := robustLoop env A z w tol 0 max_iter c r
      .ok (out.1, out.2.1, { stats with robust_iterations := some out.2.2 })

/-- The cross-validation result dictionary. -/
structure CvResult where
  mse_mean : ℚ
  mse_std : ℚ
  r2_mean : ℚ
  r2_std : ℚ
  folds_completed : ℕ
deriving DecidableEq

/-- Fold loop of cross_validation (TrendSurfaceAnalysis.py lines 457-495).
Arguments after the data: shuffled indices, fold_size, n, then fold index,
remaining folds and the accumulated (mse_scores, r2_scores). A fold whose fit
raises, or whose training set is empty or smaller than the design-matrix
column count, is skipped; cancellation and the test window running past n
break the loop. -/
def cvLoop (env : NumEnv) (canceled : ℕ → Bool) (x y z : List ℚ)
    (w : Option (List ℚ)) (degree : ℕ) (indices : List ℕ) (fold_size n : ℕ) :
    ℕ → ℕ → List ℚ × List ℚ → List ℚ × List ℚ
  | _, 0, acc => acc
  | fold, rem + 1, acc =>
    if canceled fold then acc
    else
      let test_start := fold * fold_size
      let test_end := min (test_start + fold_size) n
      if n ≤ test_start then acc
      else
        let test_idx := (indices.drop test_start).take (test_end - test_start)
        let train_idx := indices.take test_start ++ indices.drop test_end
        if train_idx = [] ∨ test_idx = [] then
          cvLoop env canceled x y z w degree indices fold_size n (fold + 1) rem acc
        else
          let A_train := create_design_matrix (gather x train_idx) (gather y train_idx) degree
          if train_idx.length < (A_train.headD []).length then
            cvLoop env canceled x y z w degree indices fold_size n (fold + 1) rem acc
          else
            let w_train := match w with
              | some ws => some (gather ws train_idx)
              | none => none
            match least_squares_fit env A_train (gather z train_idx) w_train with
            | .error _ =>
              cvLoop env canceled x y z w degree indices fold_size n (fold + 1) rem acc
            | .ok (coefficients, _, _) =>
              let A_test := create_design_matrix (gather x test_idx) (gather y test_idx) degree
              let z_pred_test := matVec A_test coefficients
              let mse := mean_squared_error (gather z test_idx) z_pred_test
              let r2 := r2_score (gather z test_idx) z_pred_test
              cvLoop env canceled x y z w degree indices fold_size n (fold + 1) rem
                (acc.1 ++ [mse], acc.2 ++ [r2])

/-- Embedding of cross_validation (TrendSurfaceAnalysis.py lines 443-506).
Returns the optional result together with the advanced random state; the
shuffle of np.arange(n) is the single consumption of randomness. -/
def cross_validation (env : NumEnv) (canceled : ℕ → Bool) (s : ℕ)
    (x y z : List ℚ) (w : Option (List ℚ)) (degree k : ℕ) :
    Option CvResult × ℕ :=
  let n := z.length
  if n < 10 then (none, s)
  else
    let shuffled := env.shuffle s (List.range n)
    let indices := shuffled.1
    let fold_size := n / k
    let scores := cvLoop env canceled x y z w degree indices fold_size n 0 (min k n) ([], [])
    if scores.1 = [] then (none, shuffled.2)
    else
      (some { mse_mean := meanQ scores.1, mse_std := stdQ env scores.1,
              r2_mean := meanQ scores.2, r2_std := stdQ env scores.2,
              folds_completed := scores.1.length }, shuffled.2)

/-- The confidence-interval record of calculate_confidence_intervals. -/
structure ConfInfo where
  rse : ℚ
  std_errors : List ℚ
  t_value : ℚ
  confidence_level : ℚ
deriving DecidableEq

/-- Embedding of calculate_confidence_intervals (TrendSurfaceAnalysis.py lines
508-543). The model_stats argument of the source is accepted and unused, as in
the source. If n <= p the degenerate all-zero record is returned. The
covariance inversion failure falls back to a uniform rse per coefficient, and
a failing t.ppf call falls back to 1.96. -/
def calculate_confidence_intervals (env : NumEnv) (A : List (List ℚ))
    (coefficients residuals : List ℚ) (confidence_level : ℚ)
    (model_stats : FitStats) (n_samples : ℕ) : ConfInfo :=
  let n := n_samples
  let p := coefficients.length
  if n ≤ p then
    { rse := 0, std_errors := List.replicate p 0, t_value := 0,
      confidence_level := confidence_level }
  else
    let ss_res := (residuals.map (fun t => t ^ 2)).sum
    let rse := env.sqrtQ (ss_res / ((n : ℚ) - (p : ℚ)))
    let std_errors :=
      match env.invQ (matMul (transpose A) A) with
      | some covInv => (diag covInv).map (fun dv => env.sqrtQ (dv * rse ^ 2))
      | none => coefficients.map (fun _ => rse)
    let t_value :=
      match env.t_ppf (1 - (1 - confidence_level) / 2) ((n : ℚ) - (p : ℚ)) with
      | some t => t
      | none => 196 / 100
    { rse := rse, std_errors := std_errors, t_value := t_value,
      confidence_level := confidence_level }

/-- The statistics dictionary of calculate_statistics; the three cv keys are
only present when a cross-validation result was supplied. -/
structure ModelStatistics where
  n_observations : ℕ
  n_parameters : ℕ
  r2 : ℚ
  r2_adjusted : ℚ
  rmse : ℚ
  mae : ℚ
  aic : ℚ
  bic : ℚ
  normality_p : ℚ
  residual_mean : ℚ
  residual_std : ℚ
  cv_mse : Option ℚ
  cv_r2 : Option ℚ
  cv_folds : Option ℕ
deriving DecidableEq

/-- Embedding of calculate_statistics (TrendSurfaceAnalysis.py lines 545-605).
The z_pred argument of the source is accepted and unused, as in the source.
With n <= p the early degenerate record is returned (its n_observations and
n_parameters keys carry the actual n and p, all other keys are 0, and no cv
keys are added even when cv_results is present). -/
def calculate_statistics (env : NumEnv) (z_obs z_pred residuals : List ℚ)
    (degree : ℕ) (cv_results : Option CvResult) : ModelStatistics :=
  let n := z_obs.length
  let p := n_terms degree
  if n ≤ p then
    { n_observations := n, n_parameters := p, r2 := 0, r2_adjusted := 0,
      rmse := 0, mae := 0, aic := 0, bic := 0, normality_p := 0,
      residual_mean := 0, residual_std := 0,
      cv_mse := none, cv_r2 := none, cv_folds := none }
  else
    let ss_res := (residuals.map (fun t => t ^ 2)).sum
    let ss_tot := ((z_obs.map (fun v => v - meanQ z_obs)).map (fun t => t ^ 2)).sum
    let r2 := if 0 < ss_tot then 1 - ss_res / ss_tot else 0
    let r2_adj :=
      if 0 < (n : ℤ) - (p : ℤ) - 1 then
        1 - (1 - r2) * ((n : ℚ) - 1) / ((n : ℚ) - (p : ℚ) - 1)
      else r2
    let rmse := env.sqrtQ (ss_res / (n : ℚ))
    let mae := meanQ (residuals.map (fun t => |t|))
    let aic := if 0 < ss_res then (n : ℚ) * env.logQ (ss_res / (n : ℚ)) + 2 * (p : ℚ) else 0
    let bic :=
      if 0 < ss_res then (n : ℚ) * env.logQ (ss_res / (n : ℚ)) + (p : ℚ) * env.logQ (n : ℚ)
      else 0
    let normality_p := match env.normaltest residuals with
      | some pv => pv
      | none => 0
    { n_observations := n, n_parameters := p, r2 := r2, r2_adjusted := r2_adj,
      rmse := rmse, mae := mae, aic := aic, bic := bic,
      normality_p := normality_p, residual_mean := meanQ residuals,
      residual_std := stdQ env residuals,
      cv_mse := cv_results.map (fun cv => cv.mse_mean),
      cv_r2 := cv_results.map (fun cv => cv.r2_mean),
      cv_folds := cv_results.map (fun cv => cv.folds_completed) }

/-- The solver dispatch of trend_surface_analysis lines 313-317: robust IRLS
when the robust flag is set (with the source defaults max_iter = 20,
tol = 1e-6), plain least squares otherwise. -/
def engine_fit (env : NumEnv) (A : List (List ℚ)) (z : List ℚ)
    (w : Option (List ℚ)) (robust : Bool) :
    Except String (List ℚ × List ℚ × FitStats) :=
  if robust then robust_regression_fit env A z w max_iter_default tol_default
  else least_squares_fit env A z w

/-- The analysis-result dictionary assembled by trend_surface_analysis. -/
structure AnalysisResult where
  coefficients : List ℚ
  predictions : List ℚ
  residuals : List ℚ
  design_matrix : List (List ℚ)
  model_stats : FitStats
  confidence_intervals : ConfInfo
  statistics : ModelStatistics
  cv_results : Option CvResult
  degree : ℕ
deriving DecidableEq

/-- Embedding of trend_surface_analysis (TrendSurfaceAnalysis.py lines
297-348), from the point where the numeric arrays x, y, z, w exist. The
design matrix np.ones((len(x), n_terms)) has n_terms columns for every row
count, so n_samples = len(x) and n_features = n_terms degree. Note the
cross-validation guard of the source is len(z) > 10, strictly. Returns the
result together with the advanced random state. -/
def trend_surface_analysis (env : NumEnv) (canceled : ℕ → Bool) (s : ℕ)
    (x y z : List ℚ) (w : Option (List ℚ)) (degree : ℕ)
    (confidence_level : ℚ) (cross_validate robust : Bool) :
    Except String (AnalysisResult × ℕ) :=
  let A := create_design_matrix x y degree
  let n_samples := x.length
  let n_features := n_terms degree
  if n_samples < n_features then .error "Insufficient data points"
  else
    match engine_fit env A z w robust with
    | .error e => .error e
    | .ok (coefficients, residuals, model_stats) =>
      let z_pred := matVec A coefficients
      let cv :=
        if cross_validate ∧ 10 < z.length then
          cross_validation env canceled s x y z w degree 5
        else (none, s)
      let confidence_intervals :=
        calculate_confidence_intervals env A coefficients residuals
          confidence_level model_stats z.length
      let statistics := calculate_statistics env z z_pred residuals degree cv.1
      .ok ({ coefficients := coefficients, predictions := z_pred,
             residuals := residuals, design_matrix := A,
             model_stats := model_stats,
             confidence_intervals := confidence_intervals,
             statistics := statistics, cv_results := cv.1, degree := degree },
           cv.2)

/-- Embedding of polynomial_regression (core_analysis.py lines 109-126):
solve the normal equations (A.T A) c = A.T z; on a LinAlgError fall back to
coefficients = np.linalg.pinv(A) @ z; a failure of the fallback itself
propagates out as an error. Residuals are z - A c on either path. -/
def polynomial_regression (env : NumEnv) (A : List (List ℚ)) (z : List ℚ) :
    Except String (List ℚ × List ℚ) :=
  match env.solveQ (matMul (transpose A) A) (matVec (transpose A) z) with
  | some coefficients => .ok (coefficients, vsub z (matVec A coefficients))
  | none =>
    match env.pinvQ A with
    | some P =>
      let coefficients := matVec P z
      .ok (coefficients, vsub z (matVec A coefficients))
    | none => .error "LinAlgError"

/-! Concrete environments and inputs used by counterexamples and witnesses. -/

/-- A simple concrete environment: the lstsq oracle answers with the head of
the (possibly weighted) target vector as single coefficient, square root and
logarithm are modelled by the identity on the sample points involved, matrix
inversion and the statistical tables are unavailable (exercising the
documented fallbacks), and the shuffle is the identity permutation. -/
def envEx : NumEnv where
  lstsq := fun _ zv => some { coefficients := [zv.headD 0], lstsq_residuals := [],
                              rank := 1, singular_values := [] }
  sqrtQ := fun q => q
  logQ := fun q => q
  invQ := fun _ => none
  t_ppf := fun _ _ => none
  normaltest := fun _ => none
  solveQ := fun _ _ => none
  pinvQ := fun _ => none
  shuffle := fun s l => (l, s + 1)

/-- An environment in which every linear solve fails but a pseudo-inverse is
available: lstsq and solve raise, pinv of any matrix answers the 1 x 1
identity. -/
def envFail : NumEnv where
  lstsq := fun _ _ => none
  sqrtQ := fun q => q
  logQ := fun q => q
  invQ := fun _ => none
  t_ppf := fun _ _ => none
  normaltest := fun _ => none
  solveQ := fun _ _ => none
  pinvQ := fun _ => some [[1]]
  shuffle := fun s l => (l, s + 1)

/-- Ten sample coordinates 0..9 used by the cross-validation examples. -/
def xs10 : List ℚ := [0, 1, 2, 3, 4, 5, 6, 7, 8, 9]

/-- Ten constant weights 4 used by the cross-validation counterexample. -/
def ws10 : List ℚ := [4, 4, 4, 4, 4, 4, 4, 4, 4, 4]

end TrendSurface

namespace TrendSurface

/-! Lemmas about the shared term enumeration. -/

theorem designTerms_succ (n : ℕ) :
    designTerms (n + 1)
      = designTerms n ++ (List.range (n + 1 + 1)).map (fun j => (n + 1 - j, j)) := by
  unfold designTerms
  rw [show List.range (n + 1 + 1) = List.range (n + 1) ++ [n + 1] from List.range_succ (n + 1),
    List.flatMap_append]
  simp only [List.flatMap_cons, List.flatMap_nil, List.append_nil]
  rw [show List.range (n + 1 + 1) = List.range (n + 1) ++ [n + 1] from List.range_succ (n + 1)]

theorem two_mul_n_terms (n : ℕ) : 2 * n_terms n = (n + 1) * (n + 2) := by
  unfold n_terms
  obtain ⟨m, hm⟩ := Nat.even_mul_succ_self (n + 1)
  rw [show (n + 1) * (n + 1 + 1) = (n + 1) * (n + 2) from by ring] at hm
  rw [hm]
  omega

theorem designTerms_length (n : ℕ) : (designTerms n).length = n_terms n := by
  induction n with
  | zero => decide
  | succ k ih =>
    rw [designTerms_succ, List.length_append, ih, List.length_map, List.length_range]
    have h1 := two_mul_n_terms k
    have h2 := two_mul_n_terms (k + 1)
    rw [show (k + 1 + 1) * (k + 1 + 2) = (k + 1) * (k + 2) + 2 * (k + 2) from by ring] at h2
    obtain ⟨C, hC⟩ : ∃ a, (k + 1) * (k + 2) = a := ⟨_, rfl⟩
    rw [hC] at h1 h2
    omega

theorem getD_map_lt {α β : Type} (f : α → β) (l : List α) (i : ℕ) (da : α) (db : β)
    (h : i < l.length) : (l.map f).getD i db = f (l.getD i da) := by
  rw [List.getD_eq_getElem _ _ (by simpa using h), List.getElem_map,
    List.getD_eq_getElem _ _ h]

theorem designTerms_index_lt (deg d j : ℕ) (hd : d ≤ deg) (hj : j ≤ d) :
    d * (d + 1) / 2 + j < (designTerms deg).length := by
  rw [designTerms_length]
  have h1 := two_mul_n_terms deg
  have e1 : 2 * (d * (d + 1) / 2) = d * (d + 1) := by
    obtain ⟨m, hm⟩ := Nat.even_mul_succ_self d
    rw [show d * (d + 1) = d * (d + 1) from rfl, hm]
    omega
  have hexp : d * (d + 1) + 2 * (d + 1) = (d + 1) * (d + 2) := by ring
  have hprod : (d + 1) * (d + 2) ≤ (deg + 1) * (deg + 2) :=
    Nat.mul_le_mul (by omega) (by omega)
  obtain ⟨A, hA⟩ : ∃ a, d * (d + 1) = a := ⟨_, rfl⟩
  obtain ⟨B, hB⟩ : ∃ a, (d + 1) * (d + 2) = a := ⟨_, rfl⟩
  obtain ⟨C, hC⟩ : ∃ a, (deg + 1) * (deg + 2) = a := ⟨_, rfl⟩
  rw [hA] at e1 hexp ⊢
  rw [hB] at hexp hprod
  rw [hC] at h1 hprod
  omega

theorem tri_eq_n_terms (k : ℕ) : (k + 1) * (k + 1 + 1) / 2 = n_terms k := by
  unfold n_terms
  rw [show (k + 1) * (k + 1 + 1) = (k + 1) * (k + 2) from by ring]

theorem designTerms_getD (deg : ℕ) :
    ∀ d j : ℕ, d ≤ deg → j ≤ d →
      (designTerms deg).getD (d * (d + 1) / 2 + j) (0, 0) = (d - j, j) := by
  induction deg with
  | zero =>
    intro d j hd hj
    have hd0 : d = 0 := Nat.le_zero.mp hd
    subst hd0
    have hj0 : j = 0 := Nat.le_zero.mp hj
    subst hj0
    decide
  | succ k ih =>
    intro d j hd hj
    by_cases hdk : d ≤ k
    · rw [designTerms_succ, List.getD_append _ _ _ _ (designTerms_index_lt k d j hdk hj)]
      exact ih d j hdk hj
    · have hdk1 : d = k + 1 := by omega
      subst hdk1
      rw [designTerms_succ]
      rw [List.getD_append_right _ _ _ _ (by rw [designTerms_length, tri_eq_n_terms]; omega)]
      rw [designTerms_length, tri_eq_n_terms]
      rw [show n_terms k + j - n_terms k = j from by omega]
      rw [getD_map_lt _ _ j 0 (0, 0) (by simpa using (by omega : j < k + 2))]
      rw [List.getD_eq_getElem _ _ (by simpa using (by omega : j < k + 2)), List.getElem_range]

theorem designRow_eq (degree : ℕ) (x y : ℚ) :
    designRow degree x y = (designTerms degree).map (fun ab => x ^ ab.1 * y ^ ab.2) := by
  simp [designRow, ← designTerms_length]

theorem designRow_length (degree : ℕ) (x y : ℚ) :
    (designRow degree x y).length = n_terms degree := by
  rw [designRow_eq, List.length_map, designTerms_length]

theorem create_design_matrix_length (x y : List ℚ) (degree : ℕ)
    (hxy : x.length = y.length) :
    (create_design_matrix x y degree).length = x.length := by
  simp [create_design_matrix, hxy]

theorem create_design_matrix_row (x y : List ℚ) (degree i : ℕ)
    (hxy : x.length = y.length) (hi : i < x.length) :
    (create_design_matrix x y degree).getD i []
      = designRow degree (x.getD i 0) (y.getD i 0) := by
  unfold create_design_matrix
  rw [List.getD_eq_getElem _ _ (by simp only [List.length_zipWith]; omega)]
  rw [List.getElem_zipWith]
  rw [List.getD_eq_getElem _ _ hi, List.getD_eq_getElem _ _ (by rw [← hxy]; exact hi)]

/-- C9: for every degree at least 1 and equal-length x, y vectors, the design
matrix of create_design_matrix has one row per point, each row has exactly
(degree + 1)(degree + 2)/2 entries, the entry at column d(d + 1)/2 + j (the
position of the pair (d, j) in the enumeration d = 0..degree, j = 0..d) is
x^(d - j) * y^j, and column 0 is the constant term 1. -/
theorem design_matrix_columns (degree : ℕ) (x y : List ℚ)
    (hdeg : 1 ≤ degree) (hxy : x.length = y.length) :
    (create_design_matrix x y degree).length = x.length ∧
    (∀ i, i < x.length →
      ((create_design_matrix x y degree).getD i []).length = n_terms degree) ∧
    (∀ i, i < x.length → ∀ d j, d ≤ degree → j ≤ d →
      ((create_design_matrix x y degree).getD i []).getD (d * (d + 1) / 2 + j) 0
        = (x.getD i 0) ^ (d - j) * (y.getD i 0) ^ j) ∧
    (∀ i, i < x.length → ((create_design_matrix x y degree).getD i []).getD 0 0 = 1) := by
  refine ⟨create_design_matrix_length x y degree hxy, fun i hi => ?_,
    fun i hi d j hd hj => ?_, fun i hi => ?_⟩
  · rw [create_design_matrix_row x y degree i hxy hi, designRow_length]
  · rw [create_design_matrix_row x y degree i hxy hi, designRow_eq]
    rw [getD_map_lt _ _ _ (0, 0) 0 (designTerms_index_lt degree d j hd hj)]
    rw [designTerms_getD degree d j hd hj]
  · rw [create_design_matrix_row x y degree i hxy hi, designRow_eq]
    rw [getD_map_lt _ _ _ (0, 0) 0
      (by simpa using designTerms_index_lt degree 0 0 (Nat.zero_le degree) le_rfl)]
    rw [show (designTerms degree).getD 0 (0, 0) = (0, 0) from by
      simpa using designTerms_getD degree 0 0 (Nat.zero_le degree) le_rfl]
    simp

/-- C9 witness at degree 1, x = [2, 5], y = [3, 7]. -/
theorem design_matrix_columns_witness :
    1 ≤ 1 ∧ ([(2 : ℚ), 5].length = [(3 : ℚ), 7].length) ∧
    ((create_design_matrix [2, 5] [3, 7] 1).getD 0 []).getD (1 * (1 + 1) / 2 + 1) 0
      = ((2 : ℚ)) ^ (1 - 1) * ((3 : ℚ)) ^ 1 := by
  refine ⟨le_rfl, rfl, ?_⟩
  exact (design_matrix_columns 1 [2, 5] [3, 7] le_rfl rfl).2.2.1 0 (by decide) 1 1 le_rfl le_rfl

theorem dot_cons (a b : ℚ) (l m : List ℚ) : dot (a :: l) (b :: m) = a * b + dot l m := by
  simp [dot]

theorem evalPolyAux_eq (x y : ℚ) (cs : List ℚ) :
    ∀ (terms : List (ℕ × ℕ)) (idx : ℕ) (v : ℚ),
      idx + terms.length ≤ cs.length →
      evalPolyAux x y cs terms idx v
        = v + dot (terms.map (fun ab => x ^ ab.1 * y ^ ab.2)) (cs.drop idx) := by
  intro terms
  induction terms with
  | nil =>
    intro idx v h
    simp [evalPolyAux, dot]
  | cons ab rest ih =>
    intro idx v h
    have hidx : idx < cs.length := by
      simp only [List.length_cons] at h
      omega
    simp only [evalPolyAux]
    rw [if_pos hidx]
    rw [ih (idx + 1) _ (by simp only [List.length_cons] at h; omega)]
    rw [List.map_cons]
    rw [show cs.drop idx = cs.getD idx 0 :: cs.drop (idx + 1) from by
      rw [List.getD_eq_getElem _ _ hidx]; exact List.drop_eq_getElem_cons hidx]
    rw [dot_cons]
    ring

/-- C1: for a coefficient vector of length (degree + 1)(degree + 2)/2, the
value of evaluate_polynomial at a sample point equals the dot product of the
design-matrix row that create_design_matrix builds for that point with the
coefficient vector; in particular re-evaluating the fitted polynomial at
sample i reproduces the prediction np.dot(A, coefficients)[i] used for the
residual of that sample. -/
theorem evaluate_polynomial_matches_design (degree : ℕ) (x y cs : List ℚ)
    (hcs : cs.length = n_terms degree) (hxy : x.length = y.length)
    (i : ℕ) (hi : i < x.length) :
    evaluate_polynomial (x.getD i 0) (y.getD i 0) cs degree
      = (matVec (create_design_matrix x y degree) cs).getD i 0 := by
  unfold matVec
  rw [getD_map_lt (fun row => dot row cs) _ i [] 0
    (by rw [create_design_matrix_length x y degree hxy]; exact hi)]
  rw [create_design_matrix_row x y degree i hxy hi, designRow_eq]
  unfold evaluate_polynomial
  rw [evalPolyAux_eq (x.getD i 0) (y.getD i 0) cs (designTerms degree) 0 0
    (by rw [designTerms_length]; omega)]
  simp

/-- C1 witness at degree 1, point (2, 3), coefficients [5, 7, 11]. -/
theorem evaluate_polynomial_matches_design_witness :
    ([(5 : ℚ), 7, 11].length = n_terms 1) ∧
    evaluate_polynomial ([(2 : ℚ)].getD 0 0) ([(3 : ℚ)].getD 0 0) [5, 7, 11] 1
      = (matVec (create_design_matrix [2] [3] 1) [5, 7, 11]).getD 0 0 :=
  ⟨by decide, evaluate_polynomial_matches_design 1 [2] [3] [5, 7, 11] (by decide) rfl 0
    (by decide)⟩

end TrendSurface

namespace TrendSurface

/-! Lemmas about the least-squares solver and the robust loop. -/

theorem least_squares_fit_residuals (env : NumEnv) (A : List (List ℚ)) (z : List ℚ)
    (w : Option (List ℚ)) (c r : List ℚ) (st : FitStats)
    (h : least_squares_fit env A z w = .ok (c, r, st)) :
    r = vsub z (matVec A c) := by
  unfold least_squares_fit at h
  cases hc : lsq_call env A z w with
  | mk fst snd =>
    rw [hc] at h
    cases fst with
    | none => simp at h
    | some out =>
      simp only [Except.ok.injEq, Prod.mk.injEq] at h
      obtain ⟨h1, h2, h3⟩ := h
      subst h1
      rw [← h2]

/-- C6: for every fit of least_squares_fit, weighted or unweighted, the
returned residual vector equals the unweighted observed z minus
np.dot(A, coefficients); the weights scale only the solved system. -/
theorem residuals_computed_unweighted (env : NumEnv) (A : List (List ℚ))
    (z : List ℚ) (w : Option (List ℚ)) (c r : List ℚ) (st : FitStats)
    (h : least_squares_fit env A z w = .ok (c, r, st)) :
    r = vsub z (matVec A c) :=
  least_squares_fit_residuals env A z w c r st h

/-- C6 witness: a concrete successful fit and its recomputed residuals. -/
theorem residuals_computed_unweighted_witness :
    least_squares_fit envEx [[1]] [5] none
      = .ok ([5], [0], ⟨1, [], 1, none, false⟩) ∧
    ([(0 : ℚ)] = vsub [5] (matVec [[1]] [5])) := by
  have hfit : least_squares_fit envEx [[1]] [5] none
      = .ok ([5], [0], ⟨1, [], 1, none, false⟩) := by
    norm_num [least_squares_fit, lsq_call, envEx, matVec, dot, vsub]
  exact ⟨hfit,
    residuals_computed_unweighted envEx [[1]] [5] none [5] [0] ⟨1, [], 1, none, false⟩ hfit⟩

/-- C2 counterexample: at the concrete system A = [[1]], z = [1], in an
environment whose primary solves fail while a pseudo-inverse exists (pinv
answers [[1]], which solves the system exactly, as the polynomial_regression
run shows), least_squares_fit signals the matrix-solving error directly; it
performs no pseudo-inverse retry, contradicting the claim for this solver. -/
theorem pinv_retry_missing_counterexample :
    least_squares_fit envFail [[1]] [1] none = .error "Matrix solving failed" ∧
    polynomial_regression envFail [[1]] [1] = .ok ([1], [0]) := by
  constructor
  · norm_num [least_squares_fit, lsq_call, envFail]
  · norm_num [polynomial_regression, envFail, matVec, transpose, matMul, dot, vsub]

/-- C2 amended: the pseudo-inverse retry lives in polynomial_regression
(core_analysis.py): there, a failing primary normal-equations solve is
retried with pinv, an error is signalled only when both fail, and no
coefficient vector is returned without an error signal on total failure. In
least_squares_fit (TrendSurfaceAnalysis.py) a failing primary solve signals
the matrix-solving error immediately, with no pseudo-inverse retry. -/
theorem pinv_fallback_located :
    (∀ (env : NumEnv) (A : List (List ℚ)) (z : List ℚ) (P : List (List ℚ)),
        env.solveQ (matMul (transpose A) A) (matVec (transpose A) z) = none →
        env.pinvQ A = some P →
        polynomial_regression env A z
          = .ok (matVec P z, vsub z (matVec A (matVec P z)))) ∧
    (∀ (env : NumEnv) (A : List (List ℚ)) (z : List ℚ) (e : String),
        polynomial_regression env A z = .error e →
        env.solveQ (matMul (transpose A) A) (matVec (transpose A) z) = none ∧
        env.pinvQ A = none) ∧
    (∀ (env : NumEnv) (A : List (List ℚ)) (z : List ℚ),
        env.lstsq A z = none →
        least_squares_fit env A z none = .error "Matrix solving failed") := by
  refine ⟨?_, ?_, ?_⟩
  · intro env A z P h1 h2
    simp [polynomial_regression, h1, h2]
  · intro env A z e h
    unfold polynomial_regression at h
    cases h1 : env.solveQ (matMul (transpose A) A) (matVec (transpose A) z) with
    | some cs => rw [h1] at h; simp at h
    | none =>
      rw [h1] at h
      cases h2 : env.pinvQ A with
      | some P => rw [h2] at h; simp at h
      | none => exact ⟨rfl, rfl⟩
  · intro env A z h
    simp [least_squares_fit, lsq_call, h]

/-- C2 amended witness: the polynomial_regression fallback at a concrete
failing primary solve with an available pseudo-inverse. -/
theorem pinv_fallback_located_witness :
    envFail.solveQ (matMul (transpose [[1]]) [[1]]) (matVec (transpose [[1]]) [1]) = none ∧
    envFail.pinvQ [[1]] = some [[1]] ∧
    polynomial_regression envFail [[1]] [1]
      = .ok (matVec [[1]] [1], vsub [1] (matVec [[1]] (matVec [[1]] [1]))) :=
  ⟨rfl, rfl, pinv_fallback_located.1 envFail [[1]] [1] [[1]] rfl rfl⟩

theorem robustLoop_inv (env : NumEnv) (A : List (List ℚ)) (z : List ℚ)
    (w : Option (List ℚ)) (tol : ℚ) :
    ∀ (rem iter : ℕ) (c r : List ℚ), r = vsub z (matVec A c) →
      (robustLoop env A z w tol iter rem c r).2.1
        = vsub z (matVec A (robustLoop env A z w tol iter rem c r).1) := by
  intro rem
  induction rem with
  | zero =>
    intro iter c r h
    simpa [robustLoop] using h
  | succ m ih =>
    intro iter c r h
    simp only [robustLoop]
    split
    · simpa using h
    · split
      · simpa using h
      · split
        · simpa using h
        · exact ih _ _ _ rfl

/-- C10: on every exit path of robust_regression_fit the returned residual
vector equals z minus np.dot(A, returned coefficients); in particular when
the convergence test fires the freshly solved coefficients are discarded and
the previous, mutually consistent pair is returned. -/
theorem robust_fit_residual_consistency (env : NumEnv) (A : List (List ℚ))
    (z : List ℚ) (w : Option (List ℚ)) (max_iter : ℕ) (tol : ℚ)
    (c r : List ℚ) (st : FitStats)
    (h : robust_regression_fit env A z w max_iter tol = .ok (c, r, st)) :
    r = vsub z (matVec A c) := by
  unfold robust_regression_fit at h
  cases hf : least_squares_fit env A z w with
  | error e => rw [hf] at h; simp at h
  | ok t =>
    obtain ⟨c0, r0, st0⟩ := t
    rw [hf] at h
    by_cases hmi : max_iter = 0
    · simp [hmi] at h
    · simp only [if_neg hmi, Except.ok.injEq, Prod.mk.injEq] at h
      obtain ⟨h1, h2, h3⟩ := h
      subst h1
      rw [← h2]
      exact robustLoop_inv env A z w tol max_iter 0 c0 r0
        (least_squares_fit_residuals env A z w c0 r0 st0 hf)

/-- C10 witness: a concrete robust fit and its residual identity. -/
theorem robust_fit_residual_consistency_witness :
    robust_regression_fit envEx [[1]] [1] none 20 (1 / 1000000)
      = .ok ([1], [0], ⟨1, [], 1, some 1, false⟩) ∧
    ([(0 : ℚ)] = vsub [1] (matVec [[1]] [1])) := by
  have hls : least_squares_fit envEx [[1]] [1] none = .ok ([1], [0], ⟨1, [], 1, none, false⟩) := by
    norm_num [least_squares_fit, lsq_call, envEx, matVec, dot, vsub]
  have hmad : median (([(0 : ℚ)]).map (fun t => |t|)) < 1 / 10 ^ 10 := by
    norm_num [median, sortQ, insertSorted]
  have hloop : robustLoop envEx [[1]] [1] none (1 / 1000000) 0 20 [1] [0] = ([1], [0], 1) := by
    rw [show (20 : ℕ) = 19 + 1 from rfl]
    simp only [robustLoop]
    rw [if_pos hmad]
  have hfit : robust_regression_fit envEx [[1]] [1] none 20 (1 / 1000000)
      = .ok ([1], [0], ⟨1, [], 1, some 1, false⟩) := by
    norm_num [robust_regression_fit, hls, hloop]
  exact ⟨hfit, robust_fit_residual_consistency envEx [[1]] [1] none 20 (1 / 1000000)
    [1] [0] ⟨1, [], 1, some 1, false⟩ hfit⟩

end TrendSurface

namespace TrendSurface

/-- C5: one pass of the robust_regression_fit loop behaves as specified.
With mad the median of the absolute residuals: if mad < 1e-10 the loop stops
keeping the current fit; the per-sample Huber weight at k = 1.345 mad is 1
when the absolute residual is at most k and k divided by the absolute
residual otherwise; when mad is not below 1e-10 the loop multiplies the
robust weights by the external weights when present, refits by weighted
least squares (keeping the current fit if that solve raises), stops keeping
the current fit when the maximum absolute coefficient change is below tol,
and otherwise continues with the new coefficients; the defaults are
max_iter = 20 and tol = 1e-6. -/
theorem robust_iteration_step (env : NumEnv) (A : List (List ℚ)) (z : List ℚ)
    (w : Option (List ℚ)) (tol : ℚ) (iter rem : ℕ) (c r : List ℚ) :
    (median (r.map (fun t => |t|)) < 1 / 10 ^ 10 →
      robustLoop env A z w tol iter (rem + 1) c r = (c, r, iter + 1)) ∧
    (∀ i, i < r.length →
      (robust_weights_of (r.map (fun t => |t|))
          (1345 / 1000 * median (r.map (fun t => |t|)))).getD i 0
        = if |r.getD i 0| ≤ 1345 / 1000 * median (r.map (fun t => |t|)) then 1
          else 1345 / 1000 * median (r.map (fun t => |t|)) / |r.getD i 0|) ∧
    (¬ median (r.map (fun t => |t|)) < 1 / 10 ^ 10 →
      let rw1 := combined_weights w (robust_weights_of (r.map (fun t => |t|))
          (1345 / 1000 * median (r.map (fun t => |t|))))
      (env.lstsq (rowScale (rw1.map env.sqrtQ) A)
            (List.zipWith (· * ·) z (rw1.map env.sqrtQ)) = none →
          robustLoop env A z w tol iter (rem + 1) c r = (c, r, iter + 1)) ∧
      (∀ out, env.lstsq (rowScale (rw1.map env.sqrtQ) A)
            (List.zipWith (· * ·) z (rw1.map env.sqrtQ)) = some out →
        (maxList (List.zipWith (fun a b => |a - b|) out.coefficients c) < tol →
          robustLoop env A z w tol iter (rem + 1) c r = (c, r, iter + 1)) ∧
        (¬ maxList (List.zipWith (fun a b => |a - b|) out.coefficients c) < tol →
          robustLoop env A z w tol iter (rem + 1) c r
            = robustLoop env A z w tol (iter + 1) rem out.coefficients
                (vsub z (matVec A out.coefficients))))) ∧
    max_iter_default = 20 ∧ tol_default = 1 / 1000000 := by
  refine ⟨?_, ?_, ?_, rfl, rfl⟩
  · intro h
    simp only [robustLoop]
    rw [if_pos h]
  · intro i hi
    unfold robust_weights_of
    rw [getD_map_lt _ _ i 0 0 (by simpa using hi)]
    rw [getD_map_lt (fun t => |t|) r i 0 0 hi]
  · intro h
    constructor
    · intro heq
      simp only [robustLoop]
      rw [if_neg h, heq]
    · intro out heq
      constructor
      · intro hch
        simp only [robustLoop]
        rw [if_neg h, heq]
        simp only [if_pos hch]
      · intro hch
        simp only [robustLoop]
        rw [if_neg h, heq]
        simp only [if_neg hch]

/-- C5 witness: with a single zero residual the median of absolute residuals
is below 1e-10 and the loop keeps the current fit. -/
theorem robust_iteration_step_witness :
    median (([(0 : ℚ)]).map (fun t => |t|)) < 1 / 10 ^ 10 ∧
    robustLoop envEx [[1]] [1] none (1 / 1000000) 0 1 [1] [0] = ([1], [0], 1) := by
  have hmad : median (([(0 : ℚ)]).map (fun t => |t|)) < 1 / 10 ^ 10 := by
    norm_num [median, sortQ, insertSorted]
  exact ⟨hmad, (robust_iteration_step envEx [[1]] [1] none (1 / 1000000) 0 0 [1] [0]).1 hmad⟩

end TrendSurface

namespace TrendSurface

/-! Cross-validation determinism and fold behaviour. -/

theorem least_squares_fit_congr (env1 env2 : NumEnv)
    (h1 : env1.lstsq = env2.lstsq) (h2 : env1.sqrtQ = env2.sqrtQ)
    (A : List (List ℚ)) (z : List ℚ) (w : Option (List ℚ)) :
    least_squares_fit env1 A z w = least_squares_fit env2 A z w := by
  unfold least_squares_fit lsq_call
  rw [h1, h2]

theorem cvLoop_congr (env1 env2 : NumEnv) (canceled : ℕ → Bool)
    (x y z : List ℚ) (w : Option (List ℚ)) (degree : ℕ) (indices : List ℕ)
    (fold_size n : ℕ)
    (h1 : env1.lstsq = env2.lstsq) (h2 : env1.sqrtQ = env2.sqrtQ) :
    ∀ (rem fold : ℕ) (acc : List ℚ × List ℚ),
      cvLoop env1 canceled x y z w degree indices fold_size n fold rem acc
        = cvLoop env2 canceled x y z w degree indices fold_size n fold rem acc := by
  intro rem
  induction rem with
  | zero => intro fold acc; rfl
  | succ m ih =>
    intro fold acc
    simp only [cvLoop, least_squares_fit_congr env1 env2 h1 h2, ih]

/-- C4: the fold assignment and scores of cross_validation are a
deterministic function of the random state it is entered with — the only
randomness is the single shuffle of np.arange(n). Two environments whose
numerical oracles agree and whose shuffles agree at the given state (in
particular, one environment run twice from the same seed state) produce
identical results, fold counts and scores included. -/
theorem cross_validation_seed_deterministic (env1 env2 : NumEnv)
    (canceled : ℕ → Bool) (s : ℕ) (x y z : List ℚ) (w : Option (List ℚ))
    (degree k : ℕ)
    (h1 : env1.lstsq = env2.lstsq) (h2 : env1.sqrtQ = env2.sqrtQ)
    (h3 : env1.shuffle s (List.range z.length) = env2.shuffle s (List.range z.length)) :
    cross_validation env1 canceled s x y z w degree k
      = cross_validation env2 canceled s x y z w degree k := by
  unfold cross_validation stdQ
  by_cases hn : z.length < 10
  · rw [if_pos hn, if_pos hn]
  · simp only [if_neg hn, h3, cvLoop_congr env1 env2 canceled x y z w degree
      (env2.shuffle s (List.range z.length)).1 (z.length / k) z.length h1 h2, h2]

/-- C4 witness: the same environment and state twice, hypotheses discharged
by reflexivity. -/
theorem cross_validation_seed_deterministic_witness :
    envEx.lstsq = envEx.lstsq ∧
    envEx.shuffle 0 (List.range xs10.length) = envEx.shuffle 0 (List.range xs10.length) ∧
    cross_validation envEx (fun _ => false) 0 xs10 xs10 xs10 none 1 5
      = cross_validation envEx (fun _ => false) 0 xs10 xs10 xs10 none 1 5 :=
  ⟨rfl, rfl, cross_validation_seed_deterministic envEx envEx (fun _ => false) 0
    xs10 xs10 xs10 none 1 5 rfl rfl rfl⟩

/-- C3 amended: every completed cross-validation fold is fitted with the
ordinary least-squares solver — never the robust IRLS, and the
cross-validation outcome is unchanged by the robust flag of the engine — but
the caller-supplied sample weights, when present, ARE passed to each fold
fit restricted to the training partition, and that fit then runs in weighted
mode. -/
theorem cv_folds_ordinary_solver_with_weights :
    (∀ (env : NumEnv) (x y z ws : List ℚ) (degree : ℕ) (train_idx : List ℕ)
        (out : List ℚ × List ℚ × FitStats),
        least_squares_fit env
            (create_design_matrix (gather x train_idx) (gather y train_idx) degree)
            (gather z train_idx) (some (gather ws train_idx)) = .ok out →
        out.2.2.usedWeighted = true) ∧
    (∀ (env : NumEnv) (canceled : ℕ → Bool) (s : ℕ) (x y z : List ℚ)
        (w : Option (List ℚ)) (degree : ℕ) (cl : ℚ) (cv : Bool)
        (r1 r2 : AnalysisResult × ℕ),
        trend_surface_analysis env canceled s x y z w degree cl cv false = .ok r1 →
        trend_surface_analysis env canceled s x y z w degree cl cv true = .ok r2 →
        r1.1.cv_results = r2.1.cv_results) := by
  constructor
  · intro env x y z ws degree train_idx out h
    have hlen : (gather ws train_idx).length = (gather z train_idx).length := by
      simp [gather]
    unfold least_squares_fit lsq_call at h
    dsimp only at h
    rw [if_pos hlen] at h
    cases he : env.lstsq
        (rowScale ((gather ws train_idx).map env.sqrtQ)
          (create_design_matrix (gather x train_idx) (gather y train_idx) degree))
        (List.zipWith (· * ·) (gather z train_idx)
          ((gather ws train_idx).map env.sqrtQ)) with
    | none => rw [he] at h; simp at h
    | some o =>
      rw [he] at h
      simp only [Except.ok.injEq] at h
      rw [← h]
  · intro env canceled s x y z w degree cl cv r1 r2 hr1 hr2
    unfold trend_surface_analysis at hr1 hr2
    by_cases hns : x.length < n_terms degree
    · rw [if_pos hns] at hr1
      exact absurd hr1 (by simp)
    · rw [if_neg hns] at hr1 hr2
      cases hf1 : engine_fit env (create_design_matrix x y degree) z w false with
      | error e => rw [hf1] at hr1; simp at hr1
      | ok t1 =>
        obtain ⟨c1, r1v, st1⟩ := t1
        rw [hf1] at hr1
        cases hf2 : engine_fit env (create_design_matrix x y degree) z w true with
        | error e => rw [hf2] at hr2; simp at hr2
        | ok t2 =>
          obtain ⟨c2, r2v, st2⟩ := t2
          rw [hf2] at hr2
          simp only [Except.ok.injEq] at hr1 hr2
          rw [← hr1, ← hr2]

/-- C3 amended witness: a concrete fold fit with weights present runs in
weighted mode. -/
theorem cv_folds_ordinary_solver_with_weights_witness :
    least_squares_fit envEx
        (create_design_matrix (gather [3] [0]) (gather [3] [0]) 1)
        (gather [3] [0]) (some (gather [4] [0]))
      = .ok ([12], [-9], ⟨1, [], 1, none, true⟩) ∧
    (([(12 : ℚ)], [(-9 : ℚ)], (⟨1, [], 1, none, true⟩ : FitStats)) : List ℚ × List ℚ × FitStats).2.2.usedWeighted = true := by
  have hfit : least_squares_fit envEx
      (create_design_matrix (gather [3] [0]) (gather [3] [0]) 1)
      (gather [3] [0]) (some (gather [4] [0]))
      = .ok ([12], [-9], ⟨1, [], 1, none, true⟩) := by
    have hdt : designTerms 1 = [(0, 0), (1, 0), (0, 1)] := by decide
    have hnt : n_terms 1 = 3 := by decide
    norm_num [least_squares_fit, lsq_call, envEx, gather, create_design_matrix,
      designRow, hdt, hnt, rowScale, matVec, dot, vsub]
  exact ⟨hfit, cv_folds_ordinary_solver_with_weights.1 envEx [3] [3] [3] [4] 1 [0]
    ([12], [-9], ⟨1, [], 1, none, true⟩) hfit⟩

/-- C8 counterexample: at z_obs = [1, 2], degree 1 (so n = 2 and p = 3, a
degenerate input), the returned record has n_parameters = 3, not zero, so
not every field of the degenerate record is zero. -/
theorem degenerate_statistics_counterexample :
    ([(1 : ℚ), 2].length ≤ n_terms 1) ∧
    (calculate_statistics envEx [1, 2] [0, 0] [1, 2] 1 none).n_parameters = 3 ∧
    (3 : ℕ) ≠ 0 := by
  refine ⟨by decide, ?_, by decide⟩
  norm_num [calculate_statistics, n_terms]

/-- C8 amended: with n at most p the statistics calculator returns the early
degenerate record whose diagnostic fields are all zero and whose cv keys are
absent, while n_observations and n_parameters carry the actual n and p. -/
theorem degenerate_statistics_record (env : NumEnv) (z_obs z_pred residuals : List ℚ)
    (degree : ℕ) (cv_results : Option CvResult)
    (h : z_obs.length ≤ n_terms degree) :
    calculate_statistics env z_obs z_pred residuals degree cv_results
      = { n_observations := z_obs.length, n_parameters := n_terms degree,
          r2 := 0, r2_adjusted := 0, rmse := 0, mae := 0, aic := 0, bic := 0,
          normality_p := 0, residual_mean := 0, residual_std := 0,
          cv_mse := none, cv_r2 := none, cv_folds := none } := by
  unfold calculate_statistics
  rw [if_pos h]

/-- C8 amended witness at the same degenerate input. -/
theorem degenerate_statistics_record_witness :
    ([(1 : ℚ), 2].length ≤ n_terms 1) ∧
    calculate_statistics envEx [1, 2] [0, 0] [1, 2] 1 none
      = { n_observations := [(1 : ℚ), 2].length, n_parameters := n_terms 1,
          r2 := 0, r2_adjusted := 0, rmse := 0, mae := 0, aic := 0, bic := 0,
          normality_p := 0, residual_mean := 0, residual_std := 0,
          cv_mse := none, cv_r2 := none, cv_folds := none } :=
  ⟨by decide, degenerate_statistics_record envEx [1, 2] [0, 0] [1, 2] 1 none (by decide)⟩

/-- C7 amended: cross_validation itself returns none for fewer than 10
samples; the orchestrator runs the cross-validation step only when the
sample count strictly exceeds 10 — when cross-validation is requested but
the count is not above 10 (including exactly 10) the result carries no
cross-validation outcome, and when the count is above 10 the step is carried
out and its outcome stored. -/
theorem cross_validation_threshold :
    (∀ (env : NumEnv) (canceled : ℕ → Bool) (s : ℕ) (x y z : List ℚ)
        (w : Option (List ℚ)) (degree k : ℕ), z.length < 10 →
        cross_validation env canceled s x y z w degree k = (none, s)) ∧
    (∀ (env : NumEnv) (canceled : ℕ → Bool) (s : ℕ) (x y z : List ℚ)
        (w : Option (List ℚ)) (degree : ℕ) (cl : ℚ) (robust : Bool)
        (res : AnalysisResult × ℕ), ¬ 10 < z.length →
        trend_surface_analysis env canceled s x y z w degree cl true robust = .ok res →
        res.1.cv_results = none) ∧
    (∀ (env : NumEnv) (canceled : ℕ → Bool) (s : ℕ) (x y z : List ℚ)
        (w : Option (List ℚ)) (degree : ℕ) (cl : ℚ) (robust : Bool)
        (res : AnalysisResult × ℕ), 10 < z.length →
        trend_surface_analysis env canceled s x y z w degree cl true robust = .ok res →
        res.1.cv_results = (cross_validation env canceled s x y z w degree 5).1) := by
  refine ⟨?_, ?_, ?_⟩
  · intro env canceled s x y z w degree k hn
    unfold cross_validation
    rw [if_pos hn]
  · intro env canceled s x y z w degree cl robust res hn h
    unfold trend_surface_analysis at h
    by_cases hns : x.length < n_terms degree
    · rw [if_pos hns] at h
      exact absurd h (by simp)
    · rw [if_neg hns] at h
      cases hf : engine_fit env (create_design_matrix x y degree) z w robust with
      | error e => rw [hf] at h; simp at h
      | ok t =>
        obtain ⟨c, rv, st⟩ := t
        rw [hf] at h
        simp only [Except.ok.injEq] at h
        rw [← h]
        rw [if_neg (fun hc : True ∧ 10 < z.length => hn hc.2)]
  · intro env canceled s x y z w degree cl robust res hn h
    unfold trend_surface_analysis at h
    by_cases hns : x.length < n_terms degree
    · rw [if_pos hns] at h
      exact absurd h (by simp)
    · rw [if_neg hns] at h
      cases hf : engine_fit env (create_design_matrix x y degree) z w robust with
      | error e => rw [hf] at h; simp at h
      | ok t =>
        obtain ⟨c, rv, st⟩ := t
        rw [hf] at h
        simp only [Except.ok.injEq] at h
        rw [← h]
        rw [if_pos (show True ∧ 10 < z.length from ⟨trivial, hn⟩)]

end TrendSurface

namespace TrendSurface

/-! Concrete cross-validation runs used by the counterexamples: the caller
cancels after the first fold, so exactly one fold completes. -/

theorem cv_run_weighted_eq :
    cross_validation envEx (fun f => decide (1 ≤ f)) 0 xs10 xs10 xs10 (some ws10) 1 5
      = (some ⟨113 / 2, 0, -225, 0, 1⟩, 1) := by
  have hdt : designTerms 1 = [(0, 0), (1, 0), (0, 1)] := by decide
  norm_num [cross_validation, cvLoop, xs10, ws10, envEx, gather, create_design_matrix,
    designRow, hdt, n_terms, least_squares_fit, lsq_call, rowScale, matVec, dot, vsub,
    mean_squared_error, r2_score, meanQ, stdQ, variance, List.range_succ, List.cons_ne_nil]

theorem cv_run_unweighted_eq :
    cross_validation envEx (fun f => decide (1 ≤ f)) 0 xs10 xs10 xs10 none 1 5
      = (some ⟨5 / 2, 0, -9, 0, 1⟩, 1) := by
  have hdt : designTerms 1 = [(0, 0), (1, 0), (0, 1)] := by decide
  norm_num [cross_validation, cvLoop, xs10, envEx, gather, create_design_matrix,
    designRow, hdt, n_terms, least_squares_fit, lsq_call, rowScale, matVec, dot, vsub,
    mean_squared_error, r2_score, meanQ, stdQ, variance, List.range_succ, List.cons_ne_nil]

/-- C3 counterexample: on ten samples with caller weights all 4 and the same
inputs otherwise, cross_validation returns different scores with and without
the weights (fold mse 113/2 against 5/2), so the completed fold's fit did
apply the caller-supplied weights — refuting the claim that per-fold fits run
in unweighted mode. -/
theorem cv_weights_counterexample :
    cross_validation envEx (fun f => decide (1 ≤ f)) 0 xs10 xs10 xs10 (some ws10) 1 5
      = (some ⟨113 / 2, 0, -225, 0, 1⟩, 1) ∧
    cross_validation envEx (fun f => decide (1 ≤ f)) 0 xs10 xs10 xs10 none 1 5
      = (some ⟨5 / 2, 0, -9, 0, 1⟩, 1) ∧
    cross_validation envEx (fun f => decide (1 ≤ f)) 0 xs10 xs10 xs10 (some ws10) 1 5
      ≠ cross_validation envEx (fun f => decide (1 ≤ f)) 0 xs10 xs10 xs10 none 1 5 := by
  refine ⟨cv_run_weighted_eq, cv_run_unweighted_eq, ?_⟩
  rw [cv_run_weighted_eq, cv_run_unweighted_eq]
  intro hc
  simp only [Prod.mk.injEq, Option.some.injEq, CvResult.mk.injEq] at hc
  exact absurd hc.1.1 (by norm_num)

/-- C7 counterexample: with exactly 10 samples and cross-validation
requested, cross_validation itself would produce a result (n = 10 passes its
own n < 10 guard), yet trend_surface_analysis stores no cross-validation
outcome because its guard is strictly len(z) > 10. -/
theorem cv_skipped_at_exactly_ten_counterexample :
    xs10.length = 10 ∧
    (cross_validation envEx (fun f => decide (1 ≤ f)) 0 xs10 xs10 xs10 none 1 5).1.isSome
      = true ∧
    (trend_surface_analysis envEx (fun f => decide (1 ≤ f)) 0 xs10 xs10 xs10 none 1
        (95 / 100) true false).toOption.map (fun p => p.1.cv_results) = some none := by
  refine ⟨by decide, ?_, ?_⟩
  · rw [cv_run_unweighted_eq]
    rfl
  · rfl

end TrendSurface

namespace TrendSurface

/-- C7 amended witness: a two-sample input is below the n >= 10 threshold and
cross_validation returns none without advancing the random state. -/
theorem cross_validation_threshold_witness :
    ([(1 : ℚ), 2].length < 10) ∧
    cross_validation envEx (fun _ => false) 0 [1, 2] [1, 2] [1, 2] none 1 5 = (none, 0) :=
  ⟨by decide, cross_validation_threshold.1 envEx (fun _ => false) 0 [1, 2] [1, 2] [1, 2]
    none 1 5 (by decide)⟩

end TrendSurface
